import Mathlib

/-!
Shallow embedding of the live interview client (the `App` component and its
helpers) of the Google conversational-agent repository.

Modelling conventions:
* React `useState` values and `useRef` cells become fields of one record,
  `AppState`; each event handler becomes a pure state-transition function.
* `Date.now()` and `outputAudioContext.currentTime` are inputs of the
  transition functions (`dateNow : Nat`, `outputClockNow : ℚ`); audio-buffer
  durations and clock readings are modelled as rationals.
* A `LiveServerMessage` records which of the server-content fields are
  present: `inputTranscription`/`outputTranscription` carry the (possibly
  empty) transcription text when the field object is present,
  `audioDuration = some d` means `modelTurn.parts[0].inlineData.data` is a
  non-empty base64 string whose decoded buffer has duration `d`.
* An `AudioBufferSourceNode` becomes an `AudioSource` carrying a creation
  index `sid` (object identity), its scheduled start time and duration, and
  a `stopped` flag; the set `outputAudioSourcesRef` becomes the list
  `liveSet` (insertion order), and sources on which `stop()` was called are
  recorded in `stoppedSources`.
* The promise returned by `ai.live.connect` becomes a `SessionConn`: while
  `opened = false` the promise is pending and every callback registered with
  `.then` (one per captured microphone frame) is queued; resolving the
  promise runs the queued callbacks in registration order, which delivers
  the frames via `sendRealtimeInput` (appended to `sent`).  Microphone
  frames themselves are opaque and identified by a `Nat`.
-/

inductive Speaker where
  | user
  | model
  | system
  deriving DecidableEq, Repr

structure ChatMessage where
  id : String
  speaker : Speaker
  text : String
  isPartial : Bool
  deriving DecidableEq, Repr

structure SavedTranscriptSession where
  id : String
  timestamp : Nat
  messages : List ChatMessage
  deriving DecidableEq, Repr

structure AudioSource where
  sid : Nat
  startTime : ℚ
  duration : ℚ
  stopped : Bool
  deriving DecidableEq, Repr

structure SessionConn where
  opened : Bool
  queued : List Nat
  sent : List Nat
  deriving DecidableEq, Repr

structure LiveServerMessage where
  inputTranscription : Option String
  outputTranscription : Option String
  audioDuration : Option ℚ
  turnComplete : Bool
  interrupted : Bool
  deriving DecidableEq, Repr

structure AppState where
  isRecording : Bool
  isLoading : Bool
  messages : List ChatMessage
  statusMessage : String
  savedTranscripts : List SavedTranscriptSession
  showPastTranscripts : Bool
  liveSession : Option SessionConn
  micStream : Bool
  inputCtx : Bool
  outputCtx : Bool
  scriptProcessor : Bool
  liveSet : List AudioSource
  stoppedSources : List AudioSource
  nextStartTime : ℚ
  currentInputTranscription : String
  currentOutputTranscription : String
  lastUserMessageId : String
  lastModelMessageId : String
  nextSourceId : Nat
  deriving DecidableEq, Repr

/-- The component's initial state (the `useState` initialisers and the
`useRef` initial values). -/
def initState : AppState where
  isRecording := false
  isLoading := false
  messages := []
  statusMessage := "Press the mic to start the interview."
  savedTranscripts := []
  showPastTranscripts := false
  liveSession := none
  micStream := false
  inputCtx := false
  outputCtx := false
  scriptProcessor := false
  liveSet := []
  stoppedSources := []
  nextStartTime := 0
  currentInputTranscription := ""
  currentOutputTranscription := ""
  lastUserMessageId := ""
  lastModelMessageId := ""
  nextSourceId := 0

/-- `findIndex` over the message list followed by an in-place `set`,
expressed as one recursion: replace the first message with the same
`(id, speaker)` as `msg`, returning `none` when there is no such message. -/
def replaceFirst (msg : ChatMessage) : List ChatMessage → Option (List ChatMessage)
  | [] => none
  | m :: rest =>
      if m.id = msg.id ∧ m.speaker = msg.speaker then some (msg :: rest)
      else (replaceFirst msg rest).map (fun l => m :: l)

/-- `addMessage`: a partial message with a non-empty id updates the existing
message with the same `(id, speaker)` in place when one exists; otherwise
the message is appended. -/
def addMessage (msg : ChatMessage) (msgs : List ChatMessage) : List ChatMessage :=
  if msg.isPartial = true ∧ msg.id ≠ "" then
    match replaceFirst msg msgs with
    | some updated => updated
    | none => msgs ++ [msg]
  else msgs ++ [msg]

/-- `clearPartialMessages`: drop every message with `isPartial` set. -/
def clearPartialMessages (msgs : List ChatMessage) : List ChatMessage :=
  msgs.filter (fun msg => !msg.isPartial)

/-- `handleMessage`: sequential handling of one `LiveServerMessage`, in the
source's order: input transcription, output transcription, model audio,
turn-complete, interrupted. -/
def handleMessage (dateNow : Nat) (outputClockNow : ℚ)
    (m : LiveServerMessage) (s : AppState) : AppState :=
  -- input transcription
  let s1 :=
    match m.inputTranscription with
    | none => s
    | some text =>
        let sa :=
          if text ≠ "" then
            if s.lastUserMessageId = "" then
              let fresh := "user-" ++ toString dateNow
              { s with lastUserMessageId := fresh,
                       messages := addMessage ⟨fresh, Speaker.user, text, true⟩ s.messages }
            else
              { s with messages :=
                  addMessage ⟨s.lastUserMessageId, Speaker.user, text, true⟩ s.messages }
          else s
        { sa with currentInputTranscription := text, statusMessage := "Listening..." }
  -- output transcription
  let s2 :=
    match m.outputTranscription with
    | none => s1
    | some text =>
        let sa :=
          if text ≠ "" then
            if s1.lastModelMessageId = "" then
              let fresh := "model-" ++ toString dateNow
              { s1 with lastModelMessageId := fresh,
                        messages := addMessage ⟨fresh, Speaker.model, text, true⟩ s1.messages }
            else
              { s1 with messages :=
                  addMessage ⟨s1.lastModelMessageId, Speaker.model, text, true⟩ s1.messages }
          else s1
        { sa with currentOutputTranscription := text, statusMessage := "Speaking..." }
  -- model audio output
  let s3 :=
    match m.audioDuration with
    | none => s2
    | some dur =>
        if s2.outputCtx then
          let nst := max s2.nextStartTime outputClockNow
          { s2 with
              nextStartTime := nst + dur,
              liveSet := s2.liveSet ++ [⟨s2.nextSourceId, nst, dur, false⟩],
              nextSourceId := s2.nextSourceId + 1,
              statusMessage := "Speaking..." }
        else s2
  -- turn complete
  let s4 :=
    if m.turnComplete then
      let sa :=
        if s3.currentInputTranscription ≠ "" then
          { s3 with
              messages := addMessage
                ⟨s3.lastUserMessageId, Speaker.user, s3.currentInputTranscription, false⟩
                s3.messages,
              currentInputTranscription := "",
              lastUserMessageId := "" }
        else s3
      let sb :=
        if sa.currentOutputTranscription ≠ "" then
          { sa with
              messages := addMessage
                ⟨sa.lastModelMessageId, Speaker.model, sa.currentOutputTranscription, false⟩
                sa.messages,
              currentOutputTranscription := "",
              lastModelMessageId := "" }
        else sa
      if !sb.isRecording && sb.liveSet.length = 0 then
        { sb with statusMessage := "Press the mic to continue." }
      else if sb.isRecording then
        { sb with statusMessage := "Listening..." }
      else sb
    else s3
  -- interrupted
  if m.interrupted then
    { s4 with
        stoppedSources := s4.stoppedSources ++ s4.liveSet.map (fun (a : AudioSource) => { a with stopped := true }),
        liveSet := [],
        nextStartTime := 0,
        messages := clearPartialMessages s4.messages,
        statusMessage := "Conversation interrupted. Please speak again." }
  else s4

/-- The `ended` listener of one playback source: remove it from the live
set and, when nothing is left to play and the session is idle, update the
status line. -/
def handleEnded (sid : Nat) (s : AppState) : AppState :=
  let s1 := { s with liveSet := s.liveSet.filter (fun a => a.sid ≠ sid) }
  if s1.liveSet.length = 0 && !s1.isRecording && !s1.showPastTranscripts then
    { s1 with statusMessage := "Press the mic to continue." }
  else s1

/-- `saveCurrentTranscript`: when any message exists, append a new archive
entry holding the non-partial messages. -/
def saveCurrentTranscript (dateNow : Nat) (s : AppState) : AppState :=
  if s.messages.length > 0 then
    { s with
        savedTranscripts := s.savedTranscripts ++
          [⟨"transcript-" ++ toString dateNow, dateNow,
            s.messages.filter (fun msg => !msg.isPartial)⟩],
        statusMessage := "Interview ended and transcript saved!" }
  else
    { s with statusMessage := "Interview ended." }

/-- `stopInterview`: full teardown, in the source's order. -/
def stopInterview (dateNow : Nat) (s : AppState) : AppState :=
  let s1 := { s with isRecording := false, isLoading := false }
  let s2 := saveCurrentTranscript dateNow s1
  let s3 := { s2 with messages := [] }
  let s4 := if s3.micStream then { s3 with micStream := false } else s3
  let s5 :=
    if s4.scriptProcessor && s4.inputCtx then
      { s4 with scriptProcessor := false, inputCtx := false }
    else s4
  let s6 := { s5 with
      stoppedSources := s5.stoppedSources ++ s5.liveSet.map (fun (a : AudioSource) => { a with stopped := true }),
      liveSet := [],
      nextStartTime := 0 }
  let s7 := if s6.outputCtx then { s6 with outputCtx := false } else s6
  let s8 := if s7.liveSession.isSome then { s7 with liveSession := none } else s7
  let s9 := { s8 with messages := clearPartialMessages s8.messages }
  { s9 with
      currentInputTranscription := "",
      currentOutputTranscription := "",
      lastUserMessageId := "",
      lastModelMessageId := "" }

/-- `handleClose`: teardown runs only when the session was recording. -/
def handleClose (dateNow : Nat) (s : AppState) : AppState :=
  if s.isRecording then
    stopInterview dateNow
      { s with statusMessage := "Interview ended due to connection loss. Please restart." }
  else s

/-- The success path of `startInterview` up to wiring the script processor:
resources acquired, a pending session promise stored, capture running. -/
def startInterviewSuccess (s : AppState) : AppState :=
  { s with
      isLoading := true,
      statusMessage := "Connecting to AI interviewer...",
      messages := [],
      lastUserMessageId := "",
      lastModelMessageId := "",
      showPastTranscripts := false,
      micStream := true,
      inputCtx := true,
      outputCtx := true,
      liveSession := some { opened := false, queued := [], sent := [] },
      scriptProcessor := true }

/-- The `onaudioprocess` callback for one captured frame: register a send on
the session promise.  On a pending promise the callback is queued; on a
resolved promise it delivers the frame immediately. -/
def onAudioProcess (frame : Nat) (s : AppState) : AppState :=
  match s.liveSession with
  | none => s
  | some c =>
      if c.opened then
        { s with liveSession := some { c with sent := c.sent ++ [frame] } }
      else
        { s with liveSession := some { c with queued := c.queued ++ [frame] } }

/-- The connection opening: the `onopen` callback fires and the session
promise resolves, running every queued `.then` callback in registration
order (each delivers its captured frame via `sendRealtimeInput`). -/
def sessionOpened (s : AppState) : AppState :=
  match s.liveSession with
  | none => s
  | some c =>
      { s with
          isRecording := true,
          isLoading := false,
          statusMessage := "Interview started. Waiting for AI to speak...",
          liveSession :=
            some { opened := true, queued := [], sent := c.sent ++ c.queued } }

/-- The input-transcription block of `handleMessage` in isolation. -/
def stepInputTranscription (dateNow : Nat) (m : LiveServerMessage) (s : AppState) : AppState :=
  match m.inputTranscription with
  | none => s
  | some text =>
      let sa :=
        if text ≠ "" then
          if s.lastUserMessageId = "" then
            let fresh := "user-" ++ toString dateNow
            { s with lastUserMessageId := fresh,
                     messages := addMessage ⟨fresh, Speaker.user, text, true⟩ s.messages }
          else
            { s with messages :=
                addMessage ⟨s.lastUserMessageId, Speaker.user, text, true⟩ s.messages }
        else s
      { sa with currentInputTranscription := text, statusMessage := "Listening..." }

/-- The output-transcription block of `handleMessage` in isolation. -/
def stepOutputTranscription (dateNow : Nat) (m : LiveServerMessage) (s : AppState) : AppState :=
  match m.outputTranscription with
  | none => s
  | some text =>
      let sa :=
        if text ≠ "" then
          if s.lastModelMessageId = "" then
            let fresh := "model-" ++ toString dateNow
            { s with lastModelMessageId := fresh,
                     messages := addMessage ⟨fresh, Speaker.model, text, true⟩ s.messages }
          else
            { s with messages :=
                addMessage ⟨s.lastModelMessageId, Speaker.model, text, true⟩ s.messages }
        else s
      { sa with currentOutputTranscription := text, statusMessage := "Speaking..." }

/-- The model-audio block of `handleMessage` in isolation: the playback
scheduler's enqueue. -/
def stepAudio (outputClockNow : ℚ) (m : LiveServerMessage) (s : AppState) : AppState :=
  match m.audioDuration with
  | none => s
  | some dur =>
      if s.outputCtx then
        let nst := max s.nextStartTime outputClockNow
        { s with
            nextStartTime := nst + dur,
            liveSet := s.liveSet ++ [⟨s.nextSourceId, nst, dur, false⟩],
            nextSourceId := s.nextSourceId + 1,
            statusMessage := "Speaking..." }
      else s

/-- The turn-complete block of `handleMessage` in isolation. -/
def stepTurnComplete (m : LiveServerMessage) (s : AppState) : AppState :=
  if m.turnComplete then
    let sa :=
      if s.currentInputTranscription ≠ "" then
        { s with
            messages := addMessage
              ⟨s.lastUserMessageId, Speaker.user, s.currentInputTranscription, false⟩
              s.messages,
            currentInputTranscription := "",
            lastUserMessageId := "" }
      else s
    let sb :=
      if sa.currentOutputTranscription ≠ "" then
        { sa with
            messages := addMessage
              ⟨sa.lastModelMessageId, Speaker.model, sa.currentOutputTranscription, false⟩
              sa.messages,
            currentOutputTranscription := "",
            lastModelMessageId := "" }
      else sa
    if !sb.isRecording && sb.liveSet.length = 0 then
      { sb with statusMessage := "Press the mic to continue." }
    else if sb.isRecording then
      { sb with statusMessage := "Listening..." }
    else sb
  else s

/-- The interrupted block of `handleMessage` in isolation. -/
def stepInterrupted (m : LiveServerMessage) (s : AppState) : AppState :=
  if m.interrupted then
    { s with
        stoppedSources := s.stoppedSources ++ s.liveSet.map (fun (a : AudioSource) => { a with stopped := true }),
        liveSet := [],
        nextStartTime := 0,
        messages := clearPartialMessages s.messages,
        statusMessage := "Conversation interrupted. Please speak again." }
  else s

/-- A message carrying only an input transcription. -/
def inputOnlyMsg (t : String) : LiveServerMessage := ⟨some t, none, none, false, false⟩

/-- A message carrying only an output transcription. -/
def outputOnlyMsg (t : String) : LiveServerMessage := ⟨none, some t, none, false, false⟩

/-- A message carrying only an audio chunk of the given decoded duration. -/
def audioOnlyMsg (d : ℚ) : LiveServerMessage := ⟨none, none, some d, false, false⟩

/-- A message carrying only the turn-complete flag. -/
def turnOnlyMsg : LiveServerMessage := ⟨none, none, none, true, false⟩

/-- A message carrying only the interrupted flag. -/
def interruptOnlyMsg : LiveServerMessage := ⟨none, none, none, false, true⟩

/-- Handling a sequence of audio-only messages; each list element supplies
the output clock's reading at its enqueue and the chunk's duration. -/
def enqueueSeq (chunks : List (ℚ × ℚ)) (s : AppState) : AppState :=
  chunks.foldl (fun st p => handleMessage 0 p.1 (audioOnlyMsg p.2) st) s

/-- The start times the scheduler's cursor discipline produces: from cursor
`c`, a chunk arriving with clock reading `now` and duration `dur` starts at
`max c now` and moves the cursor to that start plus `dur`. -/
def schedStarts (c : ℚ) : List (ℚ × ℚ) → List (ℚ × ℚ)
  | [] => []
  | (now, dur) :: rest =>
      let st := max c now
      (st, dur) :: schedStarts (st + dur) rest

/-- Handling a sequence of input-transcription-only messages, all with the
same `Date.now` reading. -/
def applyUserSeq (dateNow : Nat) (texts : List String) (s : AppState) : AppState :=
  texts.foldl (fun st t => handleMessage dateNow 0 (inputOnlyMsg t) st) s

/-- The open (partial) user messages of a state, in sequence order. -/
def openUserPartials (s : AppState) : List ChatMessage :=
  s.messages.filter (fun msg => msg.isPartial && msg.speaker == Speaker.user)

/-- A non-partial message is always appended, never an in-place update. -/
theorem addMessage_not_partial (msg : ChatMessage) (msgs : List ChatMessage)
    (h : msg.isPartial = false) : addMessage msg msgs = msgs ++ [msg] := by
  simp [addMessage, h]

/-- `handleMessage` is the sequential composition of the five field
handlers, in source order. -/
theorem handleMessage_eq_steps (dateNow : Nat) (now : ℚ) (m : LiveServerMessage) (s : AppState) :
    handleMessage dateNow now m s =
      stepInterrupted m (stepTurnComplete m (stepAudio now m
        (stepOutputTranscription dateNow m (stepInputTranscription dateNow m s)))) := rfl

/-- The input-transcription block leaves the playback scheduler's state
untouched. -/
theorem stepInputTranscription_sched (d : Nat) (m : LiveServerMessage) (s : AppState) :
    (stepInputTranscription d m s).liveSet = s.liveSet ∧
    (stepInputTranscription d m s).nextStartTime = s.nextStartTime ∧
    (stepInputTranscription d m s).nextSourceId = s.nextSourceId ∧
    (stepInputTranscription d m s).outputCtx = s.outputCtx ∧
    (stepInputTranscription d m s).stoppedSources = s.stoppedSources := by
  cases h : m.inputTranscription with
  | none => simp [stepInputTranscription, h]
  | some text =>
      simp only [stepInputTranscription, h]
      by_cases ht : text = ""
      · simp [ht]
      · by_cases hid : s.lastUserMessageId = "" <;> simp [ht, hid]

/-- The output-transcription block leaves the playback scheduler's state
untouched. -/
theorem stepOutputTranscription_sched (d : Nat) (m : LiveServerMessage) (s : AppState) :
    (stepOutputTranscription d m s).liveSet = s.liveSet ∧
    (stepOutputTranscription d m s).nextStartTime = s.nextStartTime ∧
    (stepOutputTranscription d m s).nextSourceId = s.nextSourceId ∧
    (stepOutputTranscription d m s).outputCtx = s.outputCtx ∧
    (stepOutputTranscription d m s).stoppedSources = s.stoppedSources := by
  cases h : m.outputTranscription with
  | none => simp [stepOutputTranscription, h]
  | some text =>
      simp only [stepOutputTranscription, h]
      by_cases ht : text = ""
      · simp [ht]
      · by_cases hid : s.lastModelMessageId = "" <;> simp [ht, hid]

/-- The turn-complete block leaves the playback scheduler's state
untouched. -/
theorem stepTurnComplete_sched (m : LiveServerMessage) (s : AppState) :
    (stepTurnComplete m s).liveSet = s.liveSet ∧
    (stepTurnComplete m s).nextStartTime = s.nextStartTime ∧
    (stepTurnComplete m s).nextSourceId = s.nextSourceId ∧
    (stepTurnComplete m s).outputCtx = s.outputCtx ∧
    (stepTurnComplete m s).stoppedSources = s.stoppedSources := by
  by_cases htc : m.turnComplete = true
  · simp only [stepTurnComplete, htc, if_true]
    by_cases hin : s.currentInputTranscription = "" <;>
    by_cases hout : s.currentOutputTranscription = "" <;>
      simp [hin, hout] <;> split_ifs <;> simp
  · simp [stepTurnComplete, htc]

/-- The audio block with a chunk present and an output context: one source
is enqueued at `max nextStartTime outputClockNow` and the cursor advances
by the chunk's duration. -/
theorem stepAudio_some (n : ℚ) (m : LiveServerMessage) (s : AppState) (dur : ℚ)
    (hm : m.audioDuration = some dur) (hctx : s.outputCtx = true) :
    stepAudio n m s = { s with
      nextStartTime := max s.nextStartTime n + dur,
      liveSet := s.liveSet ++ [⟨s.nextSourceId, max s.nextStartTime n, dur, false⟩],
      nextSourceId := s.nextSourceId + 1,
      statusMessage := "Speaking..." } := by
  simp [stepAudio, hm, hctx]

/-- The interrupted block with the flag set: every live source is stopped,
the live set emptied, the cursor reset, the partial messages dropped. -/
theorem stepInterrupted_true (m : LiveServerMessage) (s : AppState) (hm : m.interrupted = true) :
    stepInterrupted m s = { s with
      stoppedSources := s.stoppedSources ++
        s.liveSet.map (fun (a : AudioSource) => { a with stopped := true }),
      liveSet := [],
      nextStartTime := 0,
      messages := clearPartialMessages s.messages,
      statusMessage := "Conversation interrupted. Please speak again." } := by
  simp [stepInterrupted, hm]

theorem handleMessage_turnOnly (d : Nat) (n : ℚ) (s : AppState) :
    handleMessage d n turnOnlyMsg s = stepTurnComplete turnOnlyMsg s := rfl

theorem handleMessage_interruptOnly (d : Nat) (n : ℚ) (s : AppState) :
    handleMessage d n interruptOnlyMsg s = stepInterrupted interruptOnlyMsg s := rfl

theorem handleMessage_inputOnly (d : Nat) (n : ℚ) (t : String) (s : AppState) :
    handleMessage d n (inputOnlyMsg t) s = stepInputTranscription d (inputOnlyMsg t) s := rfl

theorem handleMessage_audioOnly (d : Nat) (n : ℚ) (dur : ℚ) (s : AppState) :
    handleMessage d n (audioOnlyMsg dur) s = stepAudio n (audioOnlyMsg dur) s := rfl

theorem stepTurnComplete_messages (m : LiveServerMessage) (s : AppState)
    (htc : m.turnComplete = true) :
    (stepTurnComplete m s).messages = s.messages
      ++ (if s.currentInputTranscription = "" then [] else
            [⟨s.lastUserMessageId, Speaker.user, s.currentInputTranscription, false⟩])
      ++ (if s.currentOutputTranscription = "" then [] else
            [⟨s.lastModelMessageId, Speaker.model, s.currentOutputTranscription, false⟩]) ∧
    (stepTurnComplete m s).currentInputTranscription = "" ∧
    (stepTurnComplete m s).currentOutputTranscription = "" ∧
    (s.currentInputTranscription ≠ "" → (stepTurnComplete m s).lastUserMessageId = "") ∧
    (s.currentOutputTranscription ≠ "" → (stepTurnComplete m s).lastModelMessageId = "") := by
  simp only [stepTurnComplete, htc, if_true]
  by_cases hin : s.currentInputTranscription = "" <;>
  by_cases hout : s.currentOutputTranscription = "" <;>
    simp [hin, hout, addMessage] <;> split_ifs <;> simp [hin, hout]

/-- C4: handling an interrupted signal, from any prior state, stops every
live playback handle, leaves the live set empty, resets `nextStartTime`
to 0, and discards all open partial messages without emitting finalized
versions of them: the message list becomes exactly the previous
non-partial messages. -/
theorem interrupted_flushes_and_discards (dateNow : Nat) (now : ℚ) (s : AppState) :
    (handleMessage dateNow now interruptOnlyMsg s).liveSet = [] ∧
    (handleMessage dateNow now interruptOnlyMsg s).nextStartTime = 0 ∧
    (∀ a ∈ s.liveSet, ({ a with stopped := true } : AudioSource) ∈
      (handleMessage dateNow now interruptOnlyMsg s).stoppedSources) ∧
    (handleMessage dateNow now interruptOnlyMsg s).messages =
      s.messages.filter (fun msg => !msg.isPartial) := by
  rw [handleMessage_interruptOnly, stepInterrupted_true _ _ rfl]
  refine ⟨rfl, rfl, ?_, rfl⟩
  intro a ha
  simp only []
  exact List.mem_append_right _ (List.mem_map_of_mem _ ha)

theorem interrupted_flushes_and_discards_witness :
    (handleMessage 0 0 interruptOnlyMsg
        { initState with
            liveSet := [⟨0, 2, 1, false⟩],
            nextStartTime := 3,
            messages := [⟨"user-1", Speaker.user, "hello", true⟩] }).liveSet = [] ∧
    ({ sid := 0, startTime := 2, duration := 1, stopped := true } : AudioSource) ∈
      (handleMessage 0 0 interruptOnlyMsg
        { initState with
            liveSet := [⟨0, 2, 1, false⟩],
            nextStartTime := 3,
            messages := [⟨"user-1", Speaker.user, "hello", true⟩] }).stoppedSources :=
  ⟨(interrupted_flushes_and_discards 0 0 _).1,
   (interrupted_flushes_and_discards 0 0 _).2.2.1 ⟨0, 2, 1, false⟩ (by simp)⟩

/-- C10: a close event while not recording is a complete no-op (no
teardown, all resources and transcript state unchanged); teardown on close
runs exactly when the session was recording. -/
theorem handleClose_not_recording_noop (dateNow : Nat) (s : AppState) :
    (s.isRecording = false → handleClose dateNow s = s) ∧
    (s.isRecording = true → handleClose dateNow s =
      stopInterview dateNow
        { s with statusMessage := "Interview ended due to connection loss. Please restart." }) := by
  constructor <;> intro h <;> simp [handleClose, h]

theorem handleClose_not_recording_noop_witness :
    handleClose 0 { initState with
        micStream := true, inputCtx := true, outputCtx := true,
        scriptProcessor := true,
        liveSet := [⟨0, 0, 1, false⟩],
        messages := [⟨"m1", Speaker.model, "Welcome", false⟩] } =
      { initState with
        micStream := true, inputCtx := true, outputCtx := true,
        scriptProcessor := true,
        liveSet := [⟨0, 0, 1, false⟩],
        messages := [⟨"m1", Speaker.model, "Welcome", false⟩] } :=
  (handleClose_not_recording_noop 0 _).1 rfl

/-- C3: on turn-complete, each speaker with non-empty pending cumulative
text gets exactly one finalized message carrying that text appended, and
its pending slot (text and id) is cleared; a speaker with empty pending
text emits nothing; a second turn-complete immediately after emits no
messages. -/
theorem turnComplete_finalizes_once (d d2 : Nat) (n n2 : ℚ) (s : AppState) :
    (handleMessage d n turnOnlyMsg s).messages = s.messages
      ++ (if s.currentInputTranscription = "" then [] else
            [⟨s.lastUserMessageId, Speaker.user, s.currentInputTranscription, false⟩])
      ++ (if s.currentOutputTranscription = "" then [] else
            [⟨s.lastModelMessageId, Speaker.model, s.currentOutputTranscription, false⟩]) ∧
    (handleMessage d n turnOnlyMsg s).currentInputTranscription = "" ∧
    (handleMessage d n turnOnlyMsg s).currentOutputTranscription = "" ∧
    (s.currentInputTranscription ≠ "" → (handleMessage d n turnOnlyMsg s).lastUserMessageId = "") ∧
    (s.currentOutputTranscription ≠ "" → (handleMessage d n turnOnlyMsg s).lastModelMessageId = "") ∧
    (handleMessage d2 n2 turnOnlyMsg (handleMessage d n turnOnlyMsg s)).messages =
      (handleMessage d n turnOnlyMsg s).messages := by
  simp only [handleMessage_turnOnly]
  obtain ⟨hm, hci, hco, hlu, hlm⟩ := stepTurnComplete_messages turnOnlyMsg s rfl
  obtain ⟨hm2, _, _, _, _⟩ :=
    stepTurnComplete_messages turnOnlyMsg (stepTurnComplete turnOnlyMsg s) rfl
  refine ⟨hm, hci, hco, hlu, hlm, ?_⟩
  rw [hm2, hci, hco]
  simp

theorem turnComplete_finalizes_once_witness :
    (handleMessage 9 0 turnOnlyMsg
      { initState with
          currentInputTranscription := "good", lastUserMessageId := "user-1",
          currentOutputTranscription := "Hello there", lastModelMessageId := "model-2",
          messages := [⟨"user-1", Speaker.user, "good", true⟩,
                       ⟨"model-2", Speaker.model, "Hello there", true⟩] }).messages =
      [⟨"user-1", Speaker.user, "good", true⟩,
       ⟨"model-2", Speaker.model, "Hello there", true⟩]
      ++ [⟨"user-1", Speaker.user, "good", false⟩]
      ++ [⟨"model-2", Speaker.model, "Hello there", false⟩] ∧
    (handleMessage 9 0 turnOnlyMsg
      { initState with
          currentInputTranscription := "good", lastUserMessageId := "user-1",
          currentOutputTranscription := "Hello there", lastModelMessageId := "model-2",
          messages := [⟨"user-1", Speaker.user, "good", true⟩,
                       ⟨"model-2", Speaker.model, "Hello there", true⟩] }).lastUserMessageId = "" := by
  refine ⟨?_, (turnComplete_finalizes_once 9 0 0 0 _).2.2.2.1 (by decide)⟩
  have h := (turnComplete_finalizes_once 9 0 0 0
    { initState with
        currentInputTranscription := "good", lastUserMessageId := "user-1",
        currentOutputTranscription := "Hello there", lastModelMessageId := "model-2",
        messages := [⟨"user-1", Speaker.user, "good", true⟩,
                     ⟨"model-2", Speaker.model, "Hello there", true⟩] }).1
  rw [if_neg (by decide), if_neg (by decide)] at h
  exact h

theorem handleMessage_inputOnly_empty (d : Nat) (n : ℚ) (s : AppState) :
    handleMessage d n (inputOnlyMsg "") s =
      { s with currentInputTranscription := "", statusMessage := "Listening..." } := by
  rw [handleMessage_inputOnly]
  simp [stepInputTranscription, inputOnlyMsg]

/-- C9: a present-but-empty input transcription resets the user's pending
cumulative text to empty without emitting or updating any message, so a
subsequent turn-complete emits no finalized user message, while any
previously emitted partial stays in the transcript with its stale text. -/
theorem emptyTranscription_resets_pending (d d2 : Nat) (n n2 : ℚ) (s : AppState) :
    (handleMessage d n (inputOnlyMsg "") s).messages = s.messages ∧
    (handleMessage d n (inputOnlyMsg "") s).currentInputTranscription = "" ∧
    (handleMessage d n (inputOnlyMsg "") s).lastUserMessageId = s.lastUserMessageId ∧
    (s.currentOutputTranscription = "" →
      (handleMessage d2 n2 turnOnlyMsg (handleMessage d n (inputOnlyMsg "") s)).messages =
        s.messages) := by
  simp only [handleMessage_inputOnly_empty, handleMessage_turnOnly]
  refine ⟨trivial, trivial, trivial, ?_⟩
  intro hout
  obtain ⟨hm, _, _, _, _⟩ := stepTurnComplete_messages turnOnlyMsg
    { s with currentInputTranscription := "", statusMessage := "Listening..." } rfl
  rw [hm]
  simp [hout]

theorem emptyTranscription_resets_pending_witness :
    (handleMessage 5 0 (inputOnlyMsg "")
      { initState with
          messages := [⟨"user-1", Speaker.user, "hello", true⟩],
          currentInputTranscription := "hello",
          lastUserMessageId := "user-1" }).messages =
      [⟨"user-1", Speaker.user, "hello", true⟩] ∧
    (handleMessage 6 0 turnOnlyMsg (handleMessage 5 0 (inputOnlyMsg "")
      { initState with
          messages := [⟨"user-1", Speaker.user, "hello", true⟩],
          currentInputTranscription := "hello",
          lastUserMessageId := "user-1" })).messages =
      [⟨"user-1", Speaker.user, "hello", true⟩] :=
  ⟨(emptyTranscription_resets_pending 5 6 0 0 _).1,
   (emptyTranscription_resets_pending 5 6 0 0 _).2.2.2 rfl⟩

/-- C8: every present field of one inbound message is handled in the fixed
order input transcription, output transcription, audio, turn-complete,
interrupted, with each later handler running on the state the earlier ones
produced; in particular an interrupted flag in the same message as an audio
chunk stops the source that very message enqueued (it ends up stopped in
`stoppedSources`, the live set empty and the cursor reset). -/
theorem handleMessage_field_order (d : Nat) (n : ℚ) (m : LiveServerMessage) (s : AppState) :
    handleMessage d n m s =
      stepInterrupted m (stepTurnComplete m (stepAudio n m
        (stepOutputTranscription d m (stepInputTranscription d m s)))) ∧
    (∀ dur : ℚ, m.audioDuration = some dur → m.interrupted = true → s.outputCtx = true →
      (handleMessage d n m s).liveSet = [] ∧
      (handleMessage d n m s).nextStartTime = 0 ∧
      (⟨s.nextSourceId, max s.nextStartTime n, dur, true⟩ : AudioSource) ∈
        (handleMessage d n m s).stoppedSources) := by
  refine ⟨handleMessage_eq_steps d n m s, ?_⟩
  intro dur hdur hint hctx
  obtain ⟨l1, n1, i1, c1, st1⟩ := stepInputTranscription_sched d m s
  obtain ⟨l2, n2, i2, c2, st2⟩ := stepOutputTranscription_sched d m (stepInputTranscription d m s)
  set t2 := stepOutputTranscription d m (stepInputTranscription d m s) with ht2
  have hctx2 : t2.outputCtx = true := by rw [c2, c1]; exact hctx
  have haudio := stepAudio_some n m t2 dur hdur hctx2
  set t3 := stepAudio n m t2 with ht3
  obtain ⟨l4, n4, i4, c4, st4⟩ := stepTurnComplete_sched m t3
  set t4 := stepTurnComplete m t3 with ht4
  have hfin := stepInterrupted_true m t4 hint
  rw [handleMessage_eq_steps]
  rw [← ht2, ← ht3, ← ht4, hfin]
  refine ⟨rfl, rfl, ?_⟩
  simp only [List.mem_append]
  right
  rw [l4, haudio]
  simp only [List.map_append, List.mem_append, List.map_cons, List.map_nil]
  right
  rw [i2, i1, n2, n1]
  simp

theorem handleMessage_field_order_witness :
    (handleMessage 0 0 (⟨none, none, some 1, false, true⟩ : LiveServerMessage)
        { initState with outputCtx := true }).liveSet = [] ∧
    ({ sid := 0, startTime := 0, duration := 1, stopped := true } : AudioSource) ∈
      (handleMessage 0 0 (⟨none, none, some 1, false, true⟩ : LiveServerMessage)
        { initState with outputCtx := true }).stoppedSources := by
  have h := (handleMessage_field_order 0 0 (⟨none, none, some 1, false, true⟩ : LiveServerMessage)
      { initState with outputCtx := true }).2 1 rfl rfl rfl
  refine ⟨h.1, ?_⟩
  have h3 := h.2.2
  simpa [initState] using h3

/-- C2 (amended): a frame captured while the session promise is still
pending is not dropped — its send callback is queued on the promise, and
once the stream opens every queued frame is delivered over the stream, in
capture order, after the frames already sent. -/
theorem preopen_frames_queued_then_sent (frames : List Nat) (s : AppState) (c : SessionConn)
    (hs : s.liveSession = some c) (hopen : c.opened = false) :
    (frames.foldl (fun st f => onAudioProcess f st) s).liveSession =
      some { c with queued := c.queued ++ frames } ∧
    (sessionOpened (frames.foldl (fun st f => onAudioProcess f st) s)).liveSession =
      some { opened := true, queued := [], sent := c.sent ++ (c.queued ++ frames) } := by
  have main : ∀ (fr : List Nat) (st : AppState) (cc : SessionConn),
      st.liveSession = some cc → cc.opened = false →
      (fr.foldl (fun st f => onAudioProcess f st) st).liveSession =
        some { cc with queued := cc.queued ++ fr } := by
    intro fr
    induction fr with
    | nil => intro st cc h1 _; simpa using h1
    | cons f fs ih =>
        intro st cc h1 h2
        have hstep : (onAudioProcess f st).liveSession =
            some { cc with queued := cc.queued ++ [f] } := by
          simp [onAudioProcess, h1, h2]
        have := ih (onAudioProcess f st) { cc with queued := cc.queued ++ [f] } hstep h2
        simpa [List.append_assoc] using this
  have h1 := main frames s c hs hopen
  refine ⟨h1, ?_⟩
  simp [sessionOpened, h1]

theorem preopen_frames_queued_then_sent_witness :
    ((([1, 2, 3] : List Nat).foldl (fun st f => onAudioProcess f st)
        (startInterviewSuccess initState)).liveSession =
      some { opened := false, queued := [1, 2, 3], sent := [] }) ∧
    (sessionOpened (([1, 2, 3] : List Nat).foldl (fun st f => onAudioProcess f st)
        (startInterviewSuccess initState))).liveSession =
      some { opened := true, queued := [], sent := [1, 2, 3] } := by
  have h := preopen_frames_queued_then_sent [1, 2, 3] (startInterviewSuccess initState)
    { opened := false, queued := [], sent := [] } rfl rfl
  exact ⟨h.1, h.2⟩

/-- C2 counterexample: after connecting, three microphone frames captured
before the "opened" acknowledgment are not dropped — once the session
opens they are all sent over the stream, in capture order. -/
theorem preopen_frames_sent_counterexample :
    (sessionOpened (onAudioProcess 3 (onAudioProcess 2 (onAudioProcess 1
        (startInterviewSuccess initState))))).liveSession =
      some { opened := true, queued := [], sent := [1, 2, 3] } ∧
    ([1, 2, 3] : List Nat) ≠ [] := by
  constructor
  · simp [sessionOpened, onAudioProcess, startInterviewSuccess, initState]
  · simp

theorem schedStarts_length (l : List (ℚ × ℚ)) : ∀ c : ℚ, (schedStarts c l).length = l.length := by
  induction l with
  | nil => intro c; simp [schedStarts]
  | cons p rest ih => intro c; obtain ⟨now, dur⟩ := p; simp [schedStarts, ih]

theorem schedStarts_consecutive (l : List (ℚ × ℚ)) :
    ∀ (c : ℚ) (i : Nat), i + 1 < l.length →
      ((schedStarts c l).getD (i + 1) (0, 0)).1 =
        max (((schedStarts c l).getD i (0, 0)).1 + ((schedStarts c l).getD i (0, 0)).2)
            ((l.getD (i + 1) (0, 0)).1) ∧
      ((schedStarts c l).getD i (0, 0)).2 = (l.getD i (0, 0)).2 := by
  induction l with
  | nil => intro c i h; simp at h
  | cons p rest ih =>
      intro c i h
      obtain ⟨now, dur⟩ := p
      cases i with
      | zero =>
          cases rest with
          | nil => simp at h
          | cons q r2 =>
              obtain ⟨n2, d2⟩ := q
              simp [schedStarts]
      | succ j =>
          have hj : j + 1 < rest.length := by simpa using h
          have := ih (max c now + dur) j hj
          simpa [schedStarts] using this

theorem enqueueSeq_liveSet (chunks : List (ℚ × ℚ)) :
    ∀ s : AppState, s.outputCtx = true →
      (enqueueSeq chunks s).liveSet.map (fun a => (a.startTime, a.duration)) =
        s.liveSet.map (fun a => (a.startTime, a.duration)) ++
          schedStarts s.nextStartTime chunks := by
  induction chunks with
  | nil => intro s h; simp [enqueueSeq, schedStarts]
  | cons p rest ih =>
      intro s h
      obtain ⟨now, dur⟩ := p
      have hstep : handleMessage 0 now (audioOnlyMsg dur) s = stepAudio now (audioOnlyMsg dur) s := rfl
      have hrec : enqueueSeq ((now, dur) :: rest) s =
          enqueueSeq rest (handleMessage 0 now (audioOnlyMsg dur) s) := by
        simp [enqueueSeq]
      rw [hrec, hstep, stepAudio_some now (audioOnlyMsg dur) s dur rfl h]
      rw [ih _ (by simpa using h)]
      simp [schedStarts]

/-- C1 (amended): each enqueued chunk is scheduled at
`max nextStartTime outputClockNow` and the cursor then advances by the
chunk's duration; over a sequence without interruption the start times are
non-decreasing and never overlap the previous chunk, and the gapless
equality `start (i+1) = start i + duration i` holds exactly when the output
clock has not passed the cursor at that enqueue. -/
theorem enqueueSeq_gapless_upTo_clock (chunks : List (ℚ × ℚ)) (s : AppState)
    (hctx : s.outputCtx = true) (hlive : s.liveSet = [])
    (hdur : ∀ p ∈ chunks, 0 ≤ p.2) :
    (∀ now dur : ℚ,
      (handleMessage 0 now (audioOnlyMsg dur) s).liveSet =
        s.liveSet ++ [⟨s.nextSourceId, max s.nextStartTime now, dur, false⟩] ∧
      (handleMessage 0 now (audioOnlyMsg dur) s).nextStartTime = max s.nextStartTime now + dur) ∧
    (enqueueSeq chunks s).liveSet.map (fun a => (a.startTime, a.duration)) =
      schedStarts s.nextStartTime chunks ∧
    (∀ i : Nat, i + 1 < chunks.length →
      let starts := (enqueueSeq chunks s).liveSet.map (fun a => (a.startTime, a.duration))
      (starts.getD i (0, 0)).1 + (starts.getD i (0, 0)).2 ≤ (starts.getD (i + 1) (0, 0)).1 ∧
      (starts.getD i (0, 0)).1 ≤ (starts.getD (i + 1) (0, 0)).1 ∧
      ((chunks.getD (i + 1) (0, 0)).1 ≤ (starts.getD i (0, 0)).1 + (starts.getD i (0, 0)).2 →
        (starts.getD (i + 1) (0, 0)).1 =
          (starts.getD i (0, 0)).1 + (starts.getD i (0, 0)).2)) := by
  have hmap : (enqueueSeq chunks s).liveSet.map (fun a => (a.startTime, a.duration)) =
      schedStarts s.nextStartTime chunks := by
    rw [enqueueSeq_liveSet chunks s hctx, hlive]
    simp
  refine ⟨?_, hmap, ?_⟩
  · intro now dur
    rw [handleMessage_audioOnly, stepAudio_some now (audioOnlyMsg dur) s dur rfl hctx]
    exact ⟨rfl, rfl⟩
  · intro i hi
    intro starts
    have hs : starts = schedStarts s.nextStartTime chunks := hmap
    obtain ⟨hcons, hdi⟩ := schedStarts_consecutive chunks s.nextStartTime i hi
    rw [hs]
    have hd0 : 0 ≤ (chunks.getD i (0, 0)).2 := by
      have hilt : i < chunks.length := Nat.lt_of_succ_lt hi
      rw [List.getD_eq_getElem _ _ hilt]
      exact hdur _ (List.getElem_mem hilt)
    have hd0' : 0 ≤ ((schedStarts s.nextStartTime chunks).getD i (0, 0)).2 := by
      rw [hdi]; exact hd0
    refine ⟨?_, ?_, ?_⟩
    · rw [hcons]; exact le_max_left _ _
    · calc ((schedStarts s.nextStartTime chunks).getD i (0, 0)).1
          ≤ ((schedStarts s.nextStartTime chunks).getD i (0, 0)).1 +
              ((schedStarts s.nextStartTime chunks).getD i (0, 0)).2 := by linarith
        _ ≤ ((schedStarts s.nextStartTime chunks).getD (i + 1) (0, 0)).1 := by
            rw [hcons]; exact le_max_left _ _
    · intro hle
      rw [hcons]
      exact max_eq_left hle

theorem enqueueSeq_gapless_upTo_clock_witness :
    (enqueueSeq [((0 : ℚ), (1 : ℚ)), ((0 : ℚ), (1 : ℚ) / 2)]
        { initState with outputCtx := true }).liveSet.map
      (fun a => (a.startTime, a.duration)) = [(0, 1), (1, 1 / 2)] := by
  have h := (enqueueSeq_gapless_upTo_clock [((0 : ℚ), (1 : ℚ)), ((0 : ℚ), (1 : ℚ) / 2)]
    { initState with outputCtx := true } rfl rfl
    (by intro p hp; fin_cases hp <;> norm_num)).2.1
  rw [h]
  norm_num [schedStarts, initState]

/-- C1 counterexample: two chunks of duration 1 enqueued without any
interruption, the first at clock 0, the second at clock 5 (an idle gap):
the second handle starts at 5, not at the previous start plus the previous
duration (1), so the unconditional gapless equality the claim derives is
false. -/
theorem enqueueSeq_gap_counterexample :
    (enqueueSeq [((0 : ℚ), (1 : ℚ)), ((5 : ℚ), (1 : ℚ))]
        { initState with outputCtx := true }).liveSet.map
      (fun a => (a.startTime, a.duration)) = [(0, 1), (5, 1)] ∧
    ((5 : ℚ), (1 : ℚ)).1 ≠ (0 : ℚ) + 1 := by
  constructor
  · norm_num [enqueueSeq, handleMessage, audioOnlyMsg, initState]
  · norm_num

theorem replaceFirst_spec (msg : ChatMessage) (msgs : List ChatMessage) :
    (replaceFirst msg msgs = none ∧
      ∀ m ∈ msgs, ¬(m.id = msg.id ∧ m.speaker = msg.speaker)) ∨
    (∃ pre mold post, msgs = pre ++ mold :: post ∧
      mold.id = msg.id ∧ mold.speaker = msg.speaker ∧
      (∀ m ∈ pre, ¬(m.id = msg.id ∧ m.speaker = msg.speaker)) ∧
      replaceFirst msg msgs = some (pre ++ msg :: post)) := by
  induction msgs with
  | nil => left; exact ⟨rfl, by simp⟩
  | cons m rest ih =>
      by_cases hm : m.id = msg.id ∧ m.speaker = msg.speaker
      · right
        exact ⟨[], m, rest, by simp, hm.1, hm.2, by simp, by simp [replaceFirst, hm]⟩
      · cases ih with
        | inl h =>
            left
            refine ⟨by simp [replaceFirst, hm, h.1], ?_⟩
            intro x hx
            rcases List.mem_cons.mp hx with hx | hx
            · subst hx; exact hm
            · exact h.2 x hx
        | inr h =>
            obtain ⟨pre, mold, post, heq, h1, h2, h3, h4⟩ := h
            right
            refine ⟨m :: pre, mold, post, by simp [heq], h1, h2, ?_, ?_⟩
            · intro x hx
              rcases List.mem_cons.mp hx with hx | hx
              · subst hx; exact hm
              · exact h3 x hx
            · simp [replaceFirst, hm, h4]

/-- C6 (amended): the transcript sequence is append-only except that a
partial update replaces, in place, the first message carrying the same
`(id, speaker)`; finalizing a turn removes or mutates nothing — it only
appends, so the open partial survives finalization alongside its appended
finalized counterpart (it is cleared later only by interruption or stop). -/
theorem transcript_append_or_replace (msg : ChatMessage) (msgs : List ChatMessage)
    (d : Nat) (n : ℚ) (s : AppState) :
    (addMessage msg msgs = msgs ++ [msg] ∨
      (msg.isPartial = true ∧ ∃ pre mold post, msgs = pre ++ mold :: post ∧
        mold.id = msg.id ∧ mold.speaker = msg.speaker ∧
        (∀ m ∈ pre, ¬(m.id = msg.id ∧ m.speaker = msg.speaker)) ∧
        addMessage msg msgs = pre ++ msg :: post)) ∧
    (∀ mm ∈ s.messages, mm ∈ (handleMessage d n turnOnlyMsg s).messages) := by
  constructor
  · by_cases hp : msg.isPartial = true ∧ msg.id ≠ ""
    · cases replaceFirst_spec msg msgs with
      | inl h => left; simp [addMessage, hp, h.1]
      | inr h =>
          obtain ⟨pre, mold, post, heq, h1, h2, h3, h4⟩ := h
          right
          exact ⟨hp.1, pre, mold, post, heq, h1, h2, h3, by simp [addMessage, hp, h4]⟩
    · left; simp [addMessage, hp]
  · intro mm hmm
    rw [handleMessage_turnOnly]
    obtain ⟨hm, _⟩ := stepTurnComplete_messages turnOnlyMsg s rfl
    rw [hm]
    exact List.mem_append_left _ (List.mem_append_left _ hmm)

theorem transcript_append_or_replace_witness :
    addMessage ⟨"m9", Speaker.model, "bye", false⟩ [⟨"m9", Speaker.model, "bye", true⟩] =
      [⟨"m9", Speaker.model, "bye", true⟩] ++ [⟨"m9", Speaker.model, "bye", false⟩] ∧
    (⟨"user-7", Speaker.user, "hi", true⟩ : ChatMessage) ∈
      (handleMessage 8 0 turnOnlyMsg
        { initState with
            messages := [⟨"user-7", Speaker.user, "hi", true⟩],
            currentInputTranscription := "hi",
            lastUserMessageId := "user-7" }).messages := by
  refine ⟨?_, ?_⟩
  · have h := (transcript_append_or_replace ⟨"m9", Speaker.model, "bye", false⟩
      [⟨"m9", Speaker.model, "bye", true⟩] 0 0 initState).1
    rcases h with h | h
    · exact h
    · exact absurd h.1 (by decide)
  · exact (transcript_append_or_replace ⟨"m9", Speaker.model, "bye", false⟩ [] 8 0
      { initState with
          messages := [⟨"user-7", Speaker.user, "hi", true⟩],
          currentInputTranscription := "hi",
          lastUserMessageId := "user-7" }).2 _ (by simp)

/-- C6 counterexample: one partial user utterance "hi" followed by a
turn-complete leaves BOTH the open partial and its appended finalized
counterpart, with the same `(id, speaker)`, in the transcript — the
finalized message does not replace the partial in place. -/
theorem finalize_leaves_partial_counterexample :
    (handleMessage 8 0 turnOnlyMsg (handleMessage 7 0 (inputOnlyMsg "hi") initState)).messages =
      [⟨"user-7", Speaker.user, "hi", true⟩, ⟨"user-7", Speaker.user, "hi", false⟩] := by
  rfl

theorem replaceFirst_no_match_append (msg : ChatMessage) (base l : List ChatMessage)
    (hb : ∀ m ∈ base, ¬(m.id = msg.id ∧ m.speaker = msg.speaker)) :
    replaceFirst msg (base ++ l) = (replaceFirst msg l).map (fun r => base ++ r) := by
  induction base with
  | nil =>
      simp only [List.nil_append]
      cases replaceFirst msg l <;> simp
  | cons m rest ih =>
      have hm := hb m (by simp)
      have ih2 := ih (fun x hx => hb x (by simp [hx]))
      rw [List.cons_append, replaceFirst, if_neg hm, ih2]
      cases replaceFirst msg l <;> simp

theorem userId_ne_empty (dn : Nat) : ("user-" ++ toString dn) ≠ "" := by
  intro h
  have hl := congrArg String.length h
  simp [String.length_append] at hl
  exact absurd hl.1 (by decide)

theorem replaceFirst_none (msg : ChatMessage) (msgs : List ChatMessage)
    (hb : ∀ m ∈ msgs, ¬(m.id = msg.id ∧ m.speaker = msg.speaker)) :
    replaceFirst msg msgs = none := by
  have h := replaceFirst_no_match_append msg msgs [] hb
  simpa [replaceFirst] using h

theorem addMessage_no_match (msg : ChatMessage) (msgs : List ChatMessage)
    (hb : ∀ m ∈ msgs, ¬(m.id = msg.id ∧ m.speaker = msg.speaker)) :
    addMessage msg msgs = msgs ++ [msg] := by
  unfold addMessage
  split_ifs with hg
  · rw [replaceFirst_none msg msgs hb]
  · rfl

theorem inputOnly_fresh (d : Nat) (n : ℚ) (x : String) (s : AppState)
    (hx : x ≠ "") (hid : s.lastUserMessageId = "")
    (hfresh : ∀ m ∈ s.messages, ¬(m.id = "user-" ++ toString d ∧ m.speaker = Speaker.user)) :
    (handleMessage d n (inputOnlyMsg x) s).messages =
      s.messages ++ [⟨"user-" ++ toString d, Speaker.user, x, true⟩] ∧
    (handleMessage d n (inputOnlyMsg x) s).lastUserMessageId = "user-" ++ toString d := by
  rw [handleMessage_inputOnly]
  simp only [stepInputTranscription, inputOnlyMsg]
  simp only [hx, hid, if_true, if_neg]
  rw [if_pos hx]
  refine ⟨?_, rfl⟩
  show addMessage ⟨"user-" ++ toString d, Speaker.user, x, true⟩ s.messages =
      s.messages ++ [⟨"user-" ++ toString d, Speaker.user, x, true⟩]
  exact addMessage_no_match _ _ hfresh

theorem inputOnly_steady (d : Nat) (n : ℚ) (x t0 uid : String) (base : List ChatMessage)
    (hx : x ≠ "") (huid : uid ≠ "")
    (hb : ∀ m ∈ base, ¬(m.id = uid ∧ m.speaker = Speaker.user))
    (s : AppState)
    (hid : s.lastUserMessageId = uid)
    (hmsg : s.messages = base ++ [⟨uid, Speaker.user, t0, true⟩]) :
    (handleMessage d n (inputOnlyMsg x) s).messages =
      base ++ [⟨uid, Speaker.user, x, true⟩] ∧
    (handleMessage d n (inputOnlyMsg x) s).lastUserMessageId = uid := by
  rw [handleMessage_inputOnly]
  simp only [stepInputTranscription, inputOnlyMsg]
  rw [if_pos hx]
  rw [if_neg (by rw [hid]; exact huid)]
  refine ⟨?_, hid⟩
  show addMessage ⟨s.lastUserMessageId, Speaker.user, x, true⟩ s.messages =
      base ++ [⟨uid, Speaker.user, x, true⟩]
  rw [hid, hmsg]
  unfold addMessage
  rw [if_pos (by exact ⟨rfl, huid⟩)]
  rw [replaceFirst_no_match_append _ _ _ hb]
  simp [replaceFirst]

theorem applyUserSeq_steady (d : Nat) (uid : String) (base : List ChatMessage)
    (huid : uid ≠ "")
    (hb : ∀ m ∈ base, ¬(m.id = uid ∧ m.speaker = Speaker.user)) :
    ∀ (rest : List String) (t0 : String) (s : AppState),
      (∀ t ∈ rest, t ≠ "") →
      s.messages = base ++ [⟨uid, Speaker.user, t0, true⟩] →
      s.lastUserMessageId = uid →
      (applyUserSeq d rest s).messages =
        base ++ [⟨uid, Speaker.user, rest.getLastD t0, true⟩] ∧
      (applyUserSeq d rest s).lastUserMessageId = uid := by
  intro rest
  induction rest with
  | nil =>
      intro t0 s _ h1 h2
      exact ⟨by simpa [applyUserSeq] using h1, by simpa [applyUserSeq] using h2⟩
  | cons x xs ih =>
      intro t0 s hall h1 h2
      have hx : x ≠ "" := hall x (by simp)
      have hstep := inputOnly_steady d 0 x t0 uid base hx huid hb s h2 h1
      have hrec : applyUserSeq d (x :: xs) s =
          applyUserSeq d xs (handleMessage d 0 (inputOnlyMsg x) s) := by
        simp [applyUserSeq]
      rw [hrec, List.getLastD_cons]
      exact ih x (handleMessage d 0 (inputOnlyMsg x) s)
        (fun t ht => hall t (by simp [ht])) hstep.1 hstep.2

/-- C5 (amended): for a sequence of partial input-transcription updates
with non-empty texts, starting with no open user partial and no pending
user id, after each update exactly one open partial user message exists,
its id is the one allocated at the first update, and its text is the most
recently supplied text (full replacement, not concatenation). -/
theorem applyPartial_last_write_wins (d : Nat) (texts : List String) (s : AppState)
    (hall : ∀ t ∈ texts, t ≠ "")
    (hid : s.lastUserMessageId = "")
    (hopen : openUserPartials s = [])
    (hfresh : ∀ m ∈ s.messages, ¬(m.id = "user-" ++ toString d ∧ m.speaker = Speaker.user)) :
    ∀ pre x post, texts = pre ++ x :: post →
      openUserPartials (applyUserSeq d (pre ++ [x]) s) =
        [⟨"user-" ++ toString d, Speaker.user, x, true⟩] ∧
      (applyUserSeq d (pre ++ [x]) s).lastUserMessageId = "user-" ++ toString d := by
  intro pre x post htexts
  have hmem : ∀ t ∈ pre ++ [x], t ≠ "" := by
    intro t ht
    apply hall
    rw [htexts]
    rcases List.mem_append.mp ht with h | h
    · exact List.mem_append_left _ h
    · simp at h
      subst h
      exact List.mem_append_right _ (by simp)
  have hofres : ∀ (msgs : List ChatMessage),
      msgs = s.messages ++ [⟨"user-" ++ toString d, Speaker.user, x, true⟩] →
      msgs.filter (fun msg => msg.isPartial && msg.speaker == Speaker.user) =
        [⟨"user-" ++ toString d, Speaker.user, x, true⟩] := by
    intro msgs hm
    rw [hm, List.filter_append]
    have hbase : s.messages.filter (fun msg => msg.isPartial && msg.speaker == Speaker.user) = [] :=
      hopen
    rw [hbase]
    simp
  cases pre with
  | nil =>
      have hx : x ≠ "" := hmem x (by simp)
      have h1 : applyUserSeq d ([] ++ [x]) s = handleMessage d 0 (inputOnlyMsg x) s := by
        simp [applyUserSeq]
      rw [h1]
      obtain ⟨hm, hid2⟩ := inputOnly_fresh d 0 x s hx hid hfresh
      exact ⟨hofres _ hm, hid2⟩
  | cons t0 prest =>
      have ht0 : t0 ≠ "" := hmem t0 (by simp)
      obtain ⟨hm1, hid1⟩ := inputOnly_fresh d 0 t0 s ht0 hid hfresh
      have h1 : applyUserSeq d ((t0 :: prest) ++ [x]) s =
          applyUserSeq d (prest ++ [x]) (handleMessage d 0 (inputOnlyMsg t0) s) := by
        simp [applyUserSeq]
      rw [h1]
      obtain ⟨hm2, hid2⟩ := applyUserSeq_steady d ("user-" ++ toString d) s.messages
        (userId_ne_empty d) hfresh (prest ++ [x]) t0
        (handleMessage d 0 (inputOnlyMsg t0) s)
        (fun t ht => hmem t (by simpa using Or.inr (by simpa using ht)))
        hm1 hid1
      rw [List.getLastD_concat] at hm2
      exact ⟨hofres _ hm2, hid2⟩

theorem applyPartial_last_write_wins_witness :
    openUserPartials (applyUserSeq 3 (["a"] ++ ["ab"]) initState) =
      [⟨"user-" ++ toString 3, Speaker.user, "ab", true⟩] :=
  (applyPartial_last_write_wins 3 ["a", "ab"] initState
    (by decide) rfl rfl (by simp [initState]) ["a"] "ab" [] rfl).1

/-- C5 counterexample: an update whose supplied text is empty emits and
updates nothing — after a single empty-text update zero (not exactly one)
open partial user messages exist, and after "a" followed by "" the open
partial still carries "a", not the most recently supplied text. -/
theorem applyPartial_empty_text_counterexample :
    openUserPartials (applyUserSeq 0 [""] initState) = [] ∧
    openUserPartials (applyUserSeq 5 ["a", ""] initState) =
      [⟨"user-5", Speaker.user, "a", true⟩] ∧
    "a" ≠ "" := by
  refine ⟨rfl, rfl, by decide⟩

theorem stopInterview_closed (d : Nat) (s : AppState) :
    stopInterview d s = { s with
      isRecording := false,
      isLoading := false,
      messages := [],
      statusMessage := if s.messages.length > 0 then
          "Interview ended and transcript saved!" else "Interview ended.",
      savedTranscripts := if s.messages.length > 0 then
          s.savedTranscripts ++
            [⟨"transcript-" ++ toString d, d, s.messages.filter (fun msg => !msg.isPartial)⟩]
        else s.savedTranscripts,
      liveSession := none,
      micStream := false,
      inputCtx := if s.scriptProcessor && s.inputCtx then false else s.inputCtx,
      outputCtx := false,
      scriptProcessor := if s.scriptProcessor && s.inputCtx then false else s.scriptProcessor,
      liveSet := [],
      stoppedSources := s.stoppedSources ++
        s.liveSet.map (fun (a : AudioSource) => { a with stopped := true }),
      nextStartTime := 0,
      currentInputTranscription := "",
      currentOutputTranscription := "",
      lastUserMessageId := "",
      lastModelMessageId := "" } := by
  simp only [stopInterview, saveCurrentTranscript, clearPartialMessages]
  split_ifs <;> simp_all

/-- C7 (amended): stopping twice in a row commits exactly one archive
entry — the second stop leaves the archive and every other component of
the state unchanged except the status text, which becomes the plain
"Interview ended." message; a first stop archives exactly one entry when
any message exists and none otherwise. -/
theorem stopInterview_second_stop (d1 d2 : Nat) (s : AppState) :
    stopInterview d2 (stopInterview d1 s) =
      { stopInterview d1 s with statusMessage := "Interview ended." } ∧
    (stopInterview d2 (stopInterview d1 s)).savedTranscripts =
      (stopInterview d1 s).savedTranscripts ∧
    (s.messages.length > 0 →
      (stopInterview d1 s).savedTranscripts.length = s.savedTranscripts.length + 1) ∧
    (s.messages.length = 0 →
      (stopInterview d1 s).savedTranscripts = s.savedTranscripts) := by
  have h1 := stopInterview_closed d1 s
  have h2 := stopInterview_closed d2 (stopInterview d1 s)
  refine ⟨?_, ?_, ?_, ?_⟩
  · rw [h2, h1]
    by_cases hg : (s.scriptProcessor && s.inputCtx) = true <;> simp [hg]
  · rw [h2]
    simp [h1]
  · intro h
    rw [h1]
    simp [h]
  · intro h
    rw [h1]
    simp [List.length_eq_zero.mp h]

theorem stopInterview_second_stop_witness :
    (stopInterview 4 { initState with
        messages := [⟨"m1", Speaker.model, "done", false⟩] }).savedTranscripts.length = 1 ∧
    (stopInterview 9 (stopInterview 4 { initState with
        messages := [⟨"m1", Speaker.model, "done", false⟩] })).savedTranscripts =
      (stopInterview 4 { initState with
        messages := [⟨"m1", Speaker.model, "done", false⟩] }).savedTranscripts := by
  have h := stopInterview_second_stop 4 9 { initState with
      messages := [⟨"m1", Speaker.model, "done", false⟩] }
  refine ⟨?_, h.2.1⟩
  simpa using h.2.2.1 (by decide)

/-- C7 counterexample: on the already-stopped state the second stop is not
a no-op — it rewrites the status text from "Interview ended and transcript
saved!" to "Interview ended." (the archive, all resources and all other
state are unchanged). -/
theorem stopInterview_not_noop_counterexample :
    stopInterview 9 (stopInterview 4 { initState with
        messages := [⟨"m1", Speaker.model, "done", false⟩] }) ≠
      stopInterview 4 { initState with
        messages := [⟨"m1", Speaker.model, "done", false⟩] } ∧
    (stopInterview 9 (stopInterview 4 { initState with
        messages := [⟨"m1", Speaker.model, "done", false⟩] })).statusMessage =
      "Interview ended." ∧
    (stopInterview 4 { initState with
        messages := [⟨"m1", Speaker.model, "done", false⟩] }).statusMessage =
      "Interview ended and transcript saved!" := by
  refine ⟨?_, rfl, rfl⟩
  intro h
  have e1 : (stopInterview 9 (stopInterview 4 { initState with
      messages := [⟨"m1", Speaker.model, "done", false⟩] })).statusMessage =
      "Interview ended." := rfl
  rw [h] at e1
  have e2 : (stopInterview 4 { initState with
      messages := [⟨"m1", Speaker.model, "done", false⟩] }).statusMessage =
      "Interview ended and transcript saved!" := rfl
  rw [e2] at e1
  exact absurd e1 (by decide)
